import Mathlib

/-!
# Verification of the BSON→Arrow bridge (bishop)

A shallow embedding, in Lean 4, of the data plane of the repository:

* `mongodb-arrow` — `MappedField`/`MappedSchema`, the BSON nested-field
  accessor (`bson_ext.rs`), and the `DocumentBuilder` materializer (`lib.rs`);
* `mongodb-datafusion` — `mongodb_projection` and the `MongoStream` record
  batch stream / `MongoExec` plan (`datasource.rs`);
* `lazy-datafusion` — the `LazyMemTable` / `LazyExec` lazy materialization
  cache (`lib.rs`).

Pure functions are translated as Lean functions; the stateful stream and the
lazy state cell are translated as explicit state passing.  Machine integers
are `Int`/`Nat`; where the source performs `u32` arithmetic that can wrap
(release-mode Rust semantics) the wrap is written explicitly as `% 2^32`.
Panics (`panic!`, `expect` on genuinely fallible operations) are modelled by
`Option`, with `none` for the panic.
-/

set_option autoImplicit false

namespace Bishop

/-! ## Arrow data types (the subset dispatched on by `DocumentBuilder`) -/

/-- `arrow::datatypes::TimeUnit`. -/
inductive TimeUnit where
  | second
  | millisecond
  | microsecond
  | nanosecond
  deriving DecidableEq, Repr

/-- `arrow::datatypes::DateUnit` (arrow 2.x). -/
inductive DateUnit where
  | day
  | millisecond
  deriving DecidableEq, Repr

/-- `arrow::datatypes::DataType`, restricted to the constructors
`DocumentBuilder::append_value` matches on; every other Arrow data type is
collapsed into `unsupported`, which hits the `panic!` arm of the dispatch.
The timestamp time-zone parameter is a wildcard `_` in the source and is
omitted. -/
inductive DataType where
  | utf8
  | largeUtf8
  | int32
  | int64
  | float64
  | boolean
  | timestamp (unit : TimeUnit)
  | date32 (unit : DateUnit)
  | date64 (unit : DateUnit)
  | time32 (unit : TimeUnit)
  | time64 (unit : TimeUnit)
  | binary
  | largeBinary
  | unsupported
  deriving DecidableEq, Repr

/-- The data types that reach a real builder arm in
`DocumentBuilder::append_value`; everything else falls through to
`ref data_type => panic!(...)`.  Note `Date32` is only matched with unit
`Day`, `Date64` only with `Millisecond`, `Time32` only with
`Second`/`Millisecond`, and `Time64` only with `Microsecond`/`Nanosecond`. -/
def DataType.supported : DataType → Bool
  | .utf8 => true
  | .largeUtf8 => true
  | .int32 => true
  | .int64 => true
  | .float64 => true
  | .boolean => true
  | .timestamp _ => true
  | .date32 .day => true
  | .date32 .millisecond => false
  | .date64 .millisecond => true
  | .date64 .day => false
  | .time32 .second => true
  | .time32 .millisecond => true
  | .time32 .microsecond => false
  | .time32 .nanosecond => false
  | .time64 .microsecond => true
  | .time64 .nanosecond => true
  | .time64 .second => false
  | .time64 .millisecond => false
  | .binary => true
  | .largeBinary => true
  | .unsupported => false

/-! ## BSON values -/

/-- `mongodb::bson::spec::BinarySubtype`.  The builder accepts exactly
`Generic`, `BinaryOld` and `UserDefined(_)`; the remaining subtypes are kept
so that the rejected cases are representable. -/
inductive BinarySubtype where
  | generic
  | function
  | binaryOld
  | uuidOld
  | uuid
  | md5
  | userDefined (code : Nat)
  | reserved (code : Nat)
  deriving DecidableEq, Repr

/-- `chrono::DateTime<Utc>`, reduced to the three observations the source
makes of it: `timestamp()` (whole seconds since the Unix epoch, floor),
`time().nanosecond()` (sub-second nanoseconds; chrono keeps this below
`2_000_000_000`, the excess encoding a leap second) and
`time().num_seconds_from_midnight()` (always below `86_400`). -/
structure BsonDateTime where
  timestamp : Int
  subsecNanos : Nat
  secsFromMidnight : Nat
  deriving DecidableEq, Repr

/-- `chrono`'s `timestamp_millis()`: `timestamp() * 1000` plus the sub-second
milliseconds. -/
def BsonDateTime.timestampMillis (dt : BsonDateTime) : Int :=
  dt.timestamp * 1000 + (dt.subsecNanos / 1000000 : Nat)

/-- `chrono`'s `timestamp_nanos()`. -/
def BsonDateTime.timestampNanos (dt : BsonDateTime) : Int :=
  dt.timestamp * 1000000000 + (dt.subsecNanos : Nat)

/-- `mongodb::bson::Bson`.  The variants the source matches on are explicit;
all remaining variants (arrays, regexes, BSON timestamps, `Decimal128`, …)
behave identically in this code base (they match no accepted pattern) and are
collapsed into `other`.  `f64` payloads are never computed with — only copied
— so a `Double` carries its 64-bit pattern as an opaque `Nat`.  An `ObjectId`
carries the 24-character hex string its `to_string()` renders. -/
inductive Bson where
  | double (bits : Nat)
  | string (s : String)
  | document (elems : List (String × Bson))
  | boolean (b : Bool)
  | null
  | int32 (v : Int)
  | int64 (v : Int)
  | objectId (hex : String)
  | datetime (dt : BsonDateTime)
  | symbol (s : String)
  | binary (subtype : BinarySubtype) (bytes : List Nat)
  | other
  deriving Repr

/-- `mongodb::bson::Document`: an insertion-ordered string→`Bson` map,
modelled as an association list (keys unique for documents built by
`insert`). -/
abbrev Document := List (String × Bson)

/-- `mongodb::bson::document::ValueAccessError`. -/
inductive ValueAccessError where
  | notPresent
  | unexpectedType
  deriving DecidableEq, Repr

/-- `Document::get`: the value bound to `key`, if any (first binding). -/
def Document.get : Document → String → Option Bson
  | [], _ => none
  | (k, v) :: rest, key => if k = key then some v else Document.get rest key

/-- `Document::get_document`: like `get`, but requiring a subdocument;
a missing key is `NotPresent`, a non-document value is `UnexpectedType`. -/
def Document.getDocument (d : Document) (key : String) :
    Except ValueAccessError Document :=
  match Document.get d key with
  | some (.document sub) => .ok sub
  | some _ => .error .unexpectedType
  | none => .error .notPresent

/-- `Document::insert` (via `FromIterator for Document`): replace the value
of an existing binding in place, otherwise append the new binding. -/
def Document.insert : Document → String → Bson → Document
  | [], key, v => [(key, v)]
  | (k, v0) :: rest, key, v =>
    if k = key then (k, v) :: rest else (k, v0) :: Document.insert rest key v

/-- `Document::entry(key).or_insert(v)`: append `(key, v)` only when `key`
is absent. -/
def Document.entryOrInsert (d : Document) (key : String) (v : Bson) : Document :=
  match Document.get d key with
  | some _ => d
  | none => d ++ [(key, v)]

/-! ## Nested-field accessor (`bson_ext.rs`) -/

/-- `bson_ext::get_nested`, on the already-split key.  The source consumes a
peekable iterator: `current = key.next().unwrap_or("")`; if another segment
is pending it descends through `get_document(current)?`, otherwise it looks
`current` up in the current document (`None` ↦ `NotPresent`).  An exhausted
iterator therefore behaves as the single segment `""`. -/
def getNestedSegs : Document → List String → Except ValueAccessError Bson
  | d, [] =>
    match Document.get d "" with
    | some v => .ok v
    | none => .error .notPresent
  | d, [k] =>
    match Document.get d k with
    | some v => .ok v
    | none => .error .notPresent
  | d, k :: k2 :: rest =>
    match Document.getDocument d k with
    | .ok sub => getNestedSegs sub (k2 :: rest)
    | .error e => .error e

/-- Rust's `str::split('.')` on the character list: cut at every `'.'`,
keeping empty segments; the empty string yields `[""]`. -/
def splitDotAux : List Char → List Char → List String
  | [], acc => [String.mk acc.reverse]
  | c :: rest, acc =>
    if c = '.' then String.mk acc.reverse :: splitDotAux rest []
    else splitDotAux rest (c :: acc)

/-- Rust's `key.split(".")`. -/
def splitDot (key : String) : List String :=
  splitDotAux key.data []

/-- `BsonGetNested::get_nested for Document`:
`get_nested(self, key.split(".").peekable())`. -/
def Document.getNested (d : Document) (key : String) :
    Except ValueAccessError Bson :=
  getNestedSegs d (splitDot key)

/-! ## Mapped schema (`mongodb-arrow/src/lib.rs`) -/

/-- `arrow::datatypes::Field`, reduced to what the source reads of it. -/
structure Field where
  name : String
  data_type : DataType
  is_nullable : Bool
  deriving DecidableEq, Repr

/-- `MappedField`: a logical Arrow field bound to a source field path. -/
structure MappedField where
  field : Field
  mongodb_field : String
  deriving DecidableEq, Repr

/-- `MappedSchema`: ordered fields, the collection name, and metadata. -/
structure MappedSchema where
  mongodb_collection : String
  fields : List MappedField
  metadata : List (String × String)
  deriving DecidableEq, Repr

/-! ## Column materializer (`DocumentBuilder`) -/

/-- A value stored in an Arrow column cell, tagged by the physical width the
corresponding builder uses (`StringBuilder`, `Int32Builder`,
`TimestampXBuilder : i64`, `Date32Builder : i32`, `Date64Builder : i64`,
`Time32XBuilder : i32`, `Time64XBuilder : i64`, `BinaryBuilder`, …). -/
inductive ArrowValue where
  | vUtf8 (s : String)
  | vInt32 (v : Int)
  | vInt64 (v : Int)
  | vFloat64 (bits : Nat)
  | vBool (b : Bool)
  | vBinary (bytes : List Nat)
  deriving DecidableEq, Repr

/-- The two `ArrowError`s this code constructs: `from_external_error` around
a `ValueAccessError` (in `append_value!`), and
`DataFusionError::Execution(msg).into_arrow_external_error()` (in
`MongoStream::poll_next`). -/
inductive ArrowError where
  | external (e : ValueAccessError)
  | execution (msg : String)
  deriving DecidableEq, Repr

/-- `FieldInfo` as built by `DocumentBuilder::new` (the `index` field is the
position in the list here). -/
structure FieldInfo where
  mongodb_field : String
  data_type : DataType
  is_nullable : Bool
  deriving DecidableEq, Repr

/-- Rust's `i64` division (`/` truncates toward zero). -/
def rustDiv (a b : Int) : Int := Int.tdiv a b

/-- Rust release-mode `u32` arithmetic: results wrap modulo `2^32`. -/
def wrap32 (n : Nat) : Nat := n % 4294967296

/-- The per-type accepted-pattern conversion of `append_value!`: `some` when
the BSON value matches one of the `Ok($p) => $e` arms for this data type
(with the converted value), `none` otherwise.

The `try_into().expect(...)` narrowings are modelled as exact: for every
`chrono`-representable datetime the narrowed quantity fits the target type
(days since epoch < 2^31, seconds/milliseconds since midnight < 2^31, and
the `u32 → i64` conversions are total), so the `expect` never fires.  The
`Time32`/`Time64` arithmetic, however, is performed by the source in `u32`,
where `sec * 1_000_000` and `sec * 1_000_000_000` can exceed `u32::MAX`;
that wrap is modelled explicitly with `wrap32`. -/
def convert : DataType → Bson → Option ArrowValue
  | .utf8, .objectId hex => some (.vUtf8 hex)
  | .utf8, .string s => some (.vUtf8 s)
  | .utf8, .symbol s => some (.vUtf8 s)
  | .largeUtf8, .objectId hex => some (.vUtf8 hex)
  | .largeUtf8, .string s => some (.vUtf8 s)
  | .largeUtf8, .symbol s => some (.vUtf8 s)
  | .int32, .int32 v => some (.vInt32 v)
  | .int64, .int64 v => some (.vInt64 v)
  | .float64, .double bits => some (.vFloat64 bits)
  | .boolean, .boolean b => some (.vBool b)
  | .timestamp .second, .datetime dt => some (.vInt64 dt.timestamp)
  | .timestamp .millisecond, .datetime dt => some (.vInt64 dt.timestampMillis)
  | .timestamp .microsecond, .datetime dt =>
    some (.vInt64 (rustDiv dt.timestampNanos 1000))
  | .timestamp .nanosecond, .datetime dt => some (.vInt64 dt.timestampNanos)
  | .date32 .day, .datetime dt => some (.vInt32 (rustDiv dt.timestamp 86400))
  | .date64 .millisecond, .datetime dt =>
    some (.vInt64 (rustDiv dt.timestamp 86400 * 1000))
  | .time32 .second, .datetime dt => some (.vInt32 dt.secsFromMidnight)
  | .time32 .millisecond, .datetime dt =>
    some (.vInt32 (wrap32 (wrap32 (dt.secsFromMidnight * 1000) +
      dt.subsecNanos / 1000000)))
  | .time64 .microsecond, .datetime dt =>
    some (.vInt64 (wrap32 (wrap32 (dt.secsFromMidnight * 1000000) +
      dt.subsecNanos / 1000)))
  | .time64 .nanosecond, .datetime dt =>
    some (.vInt64 (wrap32 (wrap32 (dt.secsFromMidnight * 1000000000) +
      dt.subsecNanos)))
  | .binary, .binary .generic bytes => some (.vBinary bytes)
  | .binary, .binary .binaryOld bytes => some (.vBinary bytes)
  | .binary, .binary (.userDefined _) bytes => some (.vBinary bytes)
  | .largeBinary, .binary .generic bytes => some (.vBinary bytes)
  | .largeBinary, .binary .binaryOld bytes => some (.vBinary bytes)
  | .largeBinary, .binary (.userDefined _) bytes => some (.vBinary bytes)
  | _, _ => none

/-- One expansion of the `append_value!` macro for a supported field: the
cell appended to this field's column (`none` = `append_null`) and the errors
pushed for this field.  The match arms, in source order:

1. `Ok($p) => builder.append_value($e)` — a matching value;
2. `Ok(Bson::Null) | Err(NotPresent) if is_nullable => append_null()`;
3. `Ok(_) => append_null(); errors.push(UnexpectedType)`;
4. `Err(e) => append_null(); errors.push(e)`. -/
def appendCell (f : FieldInfo) (doc : Document) :
    Option ArrowValue × List ArrowError :=
  match Document.getNested doc f.mongodb_field with
  | .ok v =>
    match convert f.data_type v with
    | some cell => (some cell, [])
    | none =>
      match v, f.is_nullable with
      | .null, true => (none, [])
      | _, _ => (none, [.external .unexpectedType])
  | .error .notPresent =>
    if f.is_nullable then (none, [])
    else (none, [.external .notPresent])
  | .error e => (none, [.external e])

/-- The column loop of `DocumentBuilder::append_value`: walk the fields in
order, appending one cell to each field's column and accumulating the pushed
errors in field order.  `none` models the
`ref data_type => panic!(...)` arm reached by an unsupported data type. -/
def appendColumns (doc : Document) :
    List (FieldInfo × List (Option ArrowValue)) →
    Option (List (List (Option ArrowValue)) × List ArrowError)
  | [] => some ([], [])
  | (f, col) :: rest =>
    if f.data_type.supported then
      match appendColumns doc rest with
      | some (cols, errs) =>
        some ((col ++ [(appendCell f doc).1]) :: cols,
          (appendCell f doc).2 ++ errs)
      | none => none
    else
      none

/-- `DocumentBuilder`: the `StructBuilder` is modelled by its per-field
columns (cells in append order, `none` = null) plus the struct validity
buffer; `field_info` is as in the source. -/
structure DocumentBuilder where
  field_info : List FieldInfo
  columns : List (List (Option ArrowValue))
  validity : List Bool

/-- `DocumentBuilder::new` (the capacity argument only pre-allocates and is
dropped). -/
def DocumentBuilder.new (fields : List MappedField) : DocumentBuilder :=
  { field_info := fields.map fun mf =>
      { mongodb_field := mf.mongodb_field
        data_type := mf.field.data_type
        is_nullable := mf.field.is_nullable }
    columns := fields.map fun _ => []
    validity := [] }

/-- `DocumentBuilder::append_value`: run the column loop, then commit the
row with `self.builder.append(success)` where `success = errors.is_empty()`,
returning `Ok(())` on a clean row and `Err(errors)` otherwise.  `none`
models the `panic!` on an unsupported data type. -/
def DocumentBuilder.append_value (b : DocumentBuilder) (doc : Document) :
    Option (DocumentBuilder × Except (List ArrowError) Unit) :=
  match appendColumns doc (b.field_info.zip b.columns) with
  | some (cols, errors) =>
    some ({ b with columns := cols, validity := b.validity ++ [errors.isEmpty] },
      if errors.isEmpty then .ok () else .error errors)
  | none => none

/-- `DocumentBuilder::len` (= `StructBuilder::len`, the number of committed
rows). -/
def DocumentBuilder.len (b : DocumentBuilder) : Nat := b.validity.length

/-- The `StructArray` produced by `DocumentBuilder::finish`. -/
structure StructArray where
  columns : List (List (Option ArrowValue))
  validity : List Bool
  deriving DecidableEq, Repr

/-- `DocumentBuilder::finish`. -/
def DocumentBuilder.finish (b : DocumentBuilder) : StructArray :=
  { columns := b.columns, validity := b.validity }

/-- `arrow::record_batch::RecordBatch`: the columns plus the row count.
`RecordBatch::from(&StructArray)` takes the struct's children as the
columns and the struct's length (the number of committed rows) as the row
count; the struct-level validity bitmap is not part of the batch. -/
structure RecordBatch where
  columns : List (List (Option ArrowValue))
  numRows : Nat
  deriving DecidableEq, Repr

/-- `RecordBatch::from(&StructArray)`. -/
def RecordBatch.fromStruct (s : StructArray) : RecordBatch :=
  { columns := s.columns, numRows := s.validity.length }

/-- The append loop of `DocumentsReader::into_record_batch`: append each
document in order; on the first row that reports errors, return the first
error of that row (`errors.into_iter().next()`), discarding the batch.
The outer `none` models a panic (unsupported data type, or the
`expect("empty errors")` on an empty error list — unreachable, since
`append_value` only errs with a non-empty list). -/
def appendAll (b : DocumentBuilder) :
    List Document → Option (Except ArrowError DocumentBuilder)
  | [] => some (.ok b)
  | d :: rest =>
    match b.append_value d with
    | none => none
    | some (b', .ok ()) => appendAll b' rest
    | some (_, .error []) => none
    | some (_, .error (e :: _)) => some (.error e)

/-- `DocumentsReader::new(documents, fields).into_record_batch()`. -/
def intoRecordBatch (documents : List Document) (fields : List MappedField) :
    Option (Except ArrowError RecordBatch) :=
  (appendAll (DocumentBuilder.new fields) documents).map fun r =>
    r.map fun b => RecordBatch.fromStruct b.finish

/-! ## Source table provider and execution plan
(`mongodb-datafusion/src/datasource.rs`) -/

/-- `mongodb_projection`: collect `(source path, Int32(1))` for every field
into a `Document` (repeated `insert`, so a duplicated path keeps one entry),
then `entry("_id").or_insert(Int32(0))`. -/
def mongodb_projection (schema : MappedSchema) : Document :=
  let projection :=
    schema.fields.foldl
      (fun d f => Document.insert d f.mongodb_field (.int32 1)) []
  Document.entryOrInsert projection "_id" (.int32 0)

/-- One result of polling the driver cursor, as matched by the drain loop in
`MongoStream::poll_next`: `Poll::Pending`, `Poll::Ready(Some(Ok(doc)))`,
`Poll::Ready(Some(Err(e)))` (the error reduced to its `to_string()`), or
`Poll::Ready(None)`. -/
inductive CursorItem where
  | pending
  | doc (d : Document)
  | err (msg : String)
  | eos
  deriving Repr

/-- `MongoStream`.  The driver cursor (`Fuse<Cursor>`) is modelled by the
script of poll results it will produce (`cursor`) together with the fuse's
`is_done` flag (set once the cursor has returned `None`).  The async mutex
around the cursor only matters under concurrent polling of one stream; a
poll here always acquires it. -/
structure MongoStream where
  cursorDone : Bool
  cursor : List CursorItem
  fields : List MappedField
  batch_size : Nat

/-- The value of one `poll_next` call: `Poll::Pending`, or
`Poll::Ready(item)` with `none` meaning end of stream. -/
inductive StreamPoll where
  | pending
  | ready (item : Option (Except ArrowError RecordBatch))
  deriving Repr

/-- The drain loop of `MongoStream::poll_next`, consuming cursor poll
results while pushing documents into the local buffer.  Returns the
unconsumed remainder of the cursor script, the new fuse flag, and the poll
result; `none` models a panic inside batch materialization.  An exhausted
script is read as a cursor that keeps answering `Pending`.  Note the loop
has no check of the buffer against `batch_size` (the `Vec` capacity is only
a pre-allocation), and a driver error is emitted while the fuse flag stays
unset and the buffered documents are dropped. -/
def pollLoop (fields : List MappedField) (docs : List Document) :
    List CursorItem → Option (List CursorItem × Bool × StreamPoll)
  | [] =>
    if docs.isEmpty then some ([], false, .pending)
    else (intoRecordBatch docs fields).map fun item =>
      ([], false, .ready (some item))
  | .pending :: rest =>
    if docs.isEmpty then some (rest, false, .pending)
    else (intoRecordBatch docs fields).map fun item =>
      (rest, false, .ready (some item))
  | .doc d :: rest => pollLoop fields (docs ++ [d]) rest
  | .err msg :: rest =>
    some (rest, false, .ready (some (.error (.execution msg))))
  | .eos :: rest =>
    if docs.isEmpty then some (rest, true, .ready none)
    else (intoRecordBatch docs fields).map fun item =>
      (rest, true, .ready (some item))

/-- `MongoStream::poll_next`: if the fused cursor `is_done`, return
`Ready(None)` without touching the cursor; otherwise run the drain loop on
an empty buffer. -/
def MongoStream.pollNext (s : MongoStream) : Option (MongoStream × StreamPoll) :=
  if s.cursorDone then some (s, .ready none)
  else
    (pollLoop s.fields [] s.cursor).map fun out =>
      ({ s with cursor := out.1, cursorDone := out.2.1 }, out.2.2)

/-- `MongoExec` (the `Collection` handle reduced to its name). -/
structure MongoExec where
  collection : String
  mapped_schema : MappedSchema
  batch_size : Nat
  deriving DecidableEq, Repr

/-- `ExecutionPlan::output_partitioning` for `MongoExec`:
`Partitioning::UnknownPartitioning(1)`. -/
def MongoExec.partitionCount (_e : MongoExec) : Nat := 1

/-- The `find` call `MongoExec::execute` issues: `filter = None`, the wire
projection, and the `batch_size` hint. -/
structure FindCall where
  filter : Option Document
  projection : Option Document
  batch_size : Option Nat
  deriving Repr

/-- `MongoExec::execute(_partition)`: the partition index is ignored.  The
result is the `find` call issued to the driver and the returned
`MongoStream`, parameterized by the cursor script the driver will answer
with (the fuse starts not-done). -/
def MongoExec.execute (e : MongoExec) (_partition : Nat) :
    FindCall × (List CursorItem → MongoStream) :=
  ({ filter := none
     projection := some (mongodb_projection e.mapped_schema)
     batch_size := some e.batch_size },
   fun script =>
     { cursorDone := false
       cursor := script
       fields := e.mapped_schema.fields
       batch_size := e.batch_size })

/-! ## Lazy materialization cache (`lazy-datafusion/src/lib.rs`) -/

/-- `datafusion::logical_plan::Expr`, opaque to this crate: it is only ever
cloned and passed along. -/
inductive Expr where
  | mk (id : Nat)
  deriving DecidableEq, Repr

/-- The arguments of a `scan`, as captured in `LazyExec::scan_args`
(source: the tuple `(Option<Vec<usize>>, usize, Vec<Expr>)`). -/
structure ScanArgs where
  projection : Option (List Nat)
  batch_size : Nat
  filters : List Expr
  deriving DecidableEq, Repr

/-- The upstream `dyn TableProvider` wrapped by a `LazyMemTable`, abstracted
to its boundary: its schema, and `drainResult` — the outcome of building a
full-table plan via `scan(&None, batch_size, &[])`, executing and collecting
every one of its partitions, and validating the collected batches in
`MemTable::try_new`.  `.ok data` holds the batches per partition; `.error`
is the first error of any of those steps (in which case `LazyExec::execute`
returns it and stores nothing). -/
structure Provider where
  schema : List Field
  drainResult : Except String (List (List RecordBatch))

/-- `datafusion::datasource::MemTable`, at its boundary: the schema it was
constructed with and its batches per partition. -/
structure MemTable where
  schema : List Field
  partitions : List (List RecordBatch)

/-- `lazy_datafusion::State`: the variant held by the `ArcSwap` cell. -/
inductive LazyState where
  | lazy (provider : Provider)
  | loaded (mem : MemTable)

/-- Whether a `LazyState` is the `Loaded` variant. -/
def LazyState.isLoaded : LazyState → Bool
  | .lazy _ => false
  | .loaded _ => true

/-- `LazyExec`: the specialized plan returned by `LazyMemTable::scan` in the
`Lazy` state.  The shared `parent` cell is passed explicitly to `execute`. -/
structure LazyExec where
  projected_schema : List Field
  scan_args : ScanArgs

/-- What a `LazyMemTable::scan` call returns (modulo the shared cell):
either a `LazyExec` (state was `Lazy`) or the delegated
`MemTable::scan(projection, batch_size, filters)` plan (state was
`Loaded`). -/
inductive ScanResult where
  | lazyExec (e : LazyExec)
  | memScan (m : MemTable) (args : ScanArgs)

/-- `LazyMemTable::scan`: in `Lazy`, validate the projection indices against
the upstream schema, build the projected schema, and return a `LazyExec`
carrying the raw scan arguments; in `Loaded`, delegate to the in-memory
table with the very same arguments.  No write to the state cell occurs. -/
def LazyMemTable.scan (state : LazyState) (projection : Option (List Nat))
    (batch_size : Nat) (filters : List Expr) : Except String ScanResult :=
  match state with
  | .lazy v =>
    let projected : Except String (List Field) :=
      match projection with
      | some columns =>
        columns.mapM fun i =>
          if h : i < v.schema.length then .ok (v.schema.get ⟨i, h⟩)
          else .error "Projection index out of range"
      | none => .ok v.schema
    projected.map fun fields =>
      .lazyExec
        { projected_schema := fields
          scan_args :=
            { projection := projection, batch_size := batch_size
              filters := filters } }
  | .loaded v =>
    .ok (.memScan v
      { projection := projection, batch_size := batch_size
        filters := filters })

/-- The two scan targets `LazyExec::execute` can reach. -/
inductive ScanTarget where
  | upstream
  | memTable
  deriving DecidableEq, Repr

/-- The observable outcome of one `LazyExec::execute` call, run to
completion from the observed cell state: the `scan` calls it makes in
order, the value it stores into the cell (if any), and its return value —
on success, the in-memory table and the arguments of the scan whose
partition streams the returned `CombinedStream` flattens. -/
structure LazyExecResult where
  scanCalls : List (ScanTarget × ScanArgs)
  stored : Option LazyState
  result : Except String (MemTable × ScanArgs)

/-- `LazyExec::execute(_partition)`, as a function of the state the
`self.parent.load()` observes; the partition index is ignored.  In `Lazy`:
scan the upstream with **no projection and no filters** but the caller's
`batch_size`; drain it (steps 2–4, folded into `Provider.drainResult`);
build the `MemTable` from the **full upstream schema** and the drained
partitions; swap the cell to `Loaded`; recurse as `self.execute(0)`, which
now takes the `Loaded` path.  In `Loaded`: scan the in-memory table with
the caller's original `scan_args` and return the flattened combined
stream. -/
def LazyExec.execute (e : LazyExec) (state : LazyState) (_partition : Nat) :
    LazyExecResult :=
  match state with
  | .lazy v =>
    let fullScan : ScanArgs :=
      { projection := none, batch_size := e.scan_args.batch_size
        filters := [] }
    match v.drainResult with
    | .error err =>
      { scanCalls := [(.upstream, fullScan)], stored := none
        result := .error err }
    | .ok data =>
      let mem : MemTable := { schema := v.schema, partitions := data }
      { scanCalls := [(.upstream, fullScan), (.memTable, e.scan_args)]
        stored := some (.loaded mem)
        result := .ok (mem, e.scan_args) }
  | .loaded v =>
    { scanCalls := [(.memTable, e.scan_args)], stored := none
      result := .ok (v, e.scan_args) }

/-- The possible histories of the `ArcSwap` state cell.  The only write to
the cell anywhere in the repository is the single
`self.parent.swap(Arc::new(State::Loaded(mem)))` in `LazyExec::execute`
(`LazyMemTable::schema`/`scan`/`statistics` only `load()` the cell — they
are pure functions of the observed snapshot).  A step therefore replaces
the cell's value by whatever some `execute` call stores, where the state
that call observed (`o`) is arbitrary — in a race it may be stale. -/
inductive StateTrace : LazyState → LazyState → Prop
  | refl (s : LazyState) : StateTrace s s
  | swap (s t u : LazyState) (e : LazyExec) (o : LazyState) (p : Nat) :
      StateTrace s t → (LazyExec.execute e o p).stored = some u →
      StateTrace s u

/-- `ExecutionPlan::output_partitioning` for `LazyExec`:
`Partitioning::UnknownPartitioning(1)`. -/
def LazyExec.partitionCount (_e : LazyExec) : Nat := 1

/-! ## Derived notions used by the theorems -/

/-- The per-column errors one row records, in field order (the contents of
the `errors` vector after the column loop of `append_value`). -/
def rowErrors (doc : Document) (fs : List FieldInfo) : List ArrowError :=
  (fs.map fun f => (appendCell f doc).2).flatten

/-- All columns and the struct validity buffer are consistent: one column
per field, every column as long as the validity buffer. -/
def DocumentBuilder.Aligned (b : DocumentBuilder) : Prop :=
  b.columns.length = b.field_info.length ∧
  ∀ c ∈ b.columns, c.length = b.validity.length

/-- The builders produced by `DocumentBuilder::new` and grown by
`append_value` calls (the only ways the source constructs or mutates a
builder). -/
inductive BuilderReachable : DocumentBuilder → Prop
  | new (fields : List MappedField) :
      BuilderReachable (DocumentBuilder.new fields)
  | append (b b' : DocumentBuilder) (doc : Document)
      (r : Except (List ArrowError) Unit) :
      BuilderReachable b → b.append_value doc = some (b', r) →
      BuilderReachable b'

/-- Every maximal run of consecutive documents in a cursor script is at
most `bs` long, counting from a run already `c` documents in.  This is how
a driver that honors the server-side `batch_size` hint behaves: at most
`bs` buffered documents are yielded back-to-back before the cursor has to
await the next server batch (returning `Pending` at least once). -/
def runsBoundedAux (bs : Nat) : Nat → List CursorItem → Bool
  | _, [] => true
  | c, .doc _ :: rest => decide (c + 1 ≤ bs) && runsBoundedAux bs (c + 1) rest
  | _, .pending :: rest => runsBoundedAux bs 0 rest
  | _, .err _ :: rest => runsBoundedAux bs 0 rest
  | _, .eos :: rest => runsBoundedAux bs 0 rest

/-- A cursor-script prefix consisting only of documents. -/
def allDocItems : List CursorItem → Bool
  | [] => true
  | .doc _ :: rest => allDocItems rest
  | _ => false

/-! ## Concrete inputs used by witnesses and counterexamples -/

/-- A single nullable `Int32` column named and sourced `x`. -/
def fieldX : MappedField := ⟨⟨"x", .int32, true⟩, "x"⟩

/-- `{"x": 1}`. -/
def docX1 : Document := [("x", .int32 1)]

/-- A stream over one nullable `Int32` column with `batch_size = 1` whose
cursor yields two documents before suspending. -/
def c1Stream : MongoStream :=
  { cursorDone := false
    cursor := [.doc docX1, .doc docX1, .pending]
    fields := [fieldX]
    batch_size := 1 }

/-- A stream whose cursor yields a driver error and then a further
document. -/
def c2Stream : MongoStream :=
  { cursorDone := false
    cursor := [.err "boom", .doc docX1, .pending]
    fields := [fieldX]
    batch_size := 1 }

/-- A single non-nullable `Int32` column named and sourced `x`. -/
def c5field : MappedField := ⟨⟨"x", .int32, false⟩, "x"⟩

/-- The builder state after appending the empty document to
`DocumentBuilder.new [c5field]`. -/
def c5after : DocumentBuilder :=
  { field_info := [⟨"x", .int32, false⟩]
    columns := [[none]]
    validity := [false] }

/-- The builder state after appending `{"x": 1}` to
`DocumentBuilder.new [fieldX]`. -/
def c6after : DocumentBuilder :=
  { field_info := [⟨"x", .int32, true⟩]
    columns := [[some (.vInt32 1)]]
    validity := [true] }

/-- An upstream provider with one field whose full drain yields one
partition with no batches. -/
def c4provider : Provider :=
  { schema := [⟨"x", .int32, true⟩]
    drainResult := .ok [[]] }

/-- A `LazyExec` carrying a caller projection `[0]`, `batch_size = 7` and
one opaque filter. -/
def c4exec : LazyExec :=
  { projected_schema := [⟨"x", .int32, true⟩]
    scan_args := { projection := some [0], batch_size := 7
                   filters := [.mk 0] } }

/-! ## Helper lemmas: documents -/

theorem Document.get_insert (d : Document) (key k : String) (v : Bson) :
    Document.get (Document.insert d key v) k =
      if key = k then some v else Document.get d k := by
  induction d with
  | nil => rfl
  | cons hd tl ih =>
    obtain ⟨k0, v0⟩ := hd
    by_cases h0 : k0 = key
    · subst h0
      simp only [Document.insert, if_pos rfl, Document.get]
      by_cases hk : k0 = k <;> simp [hk]
    · simp only [Document.insert, if_neg h0, Document.get, ih]
      by_cases hk : k0 = k
      · have hkey : ¬key = k := fun h => h0 (hk.trans h.symm)
        simp [hk, hkey]
      · simp [hk]

theorem Document.get_append_single (d : Document) (key k : String) (v : Bson) :
    Document.get (d ++ [(key, v)]) k =
      match Document.get d k with
      | some w => some w
      | none => if key = k then some v else none := by
  induction d with
  | nil => simp [Document.get]
  | cons hd tl ih =>
    obtain ⟨k0, v0⟩ := hd
    by_cases hk : k0 = k
    · simp [Document.get, hk]
    · simp only [List.cons_append, Document.get, if_neg hk]
      exact ih

/-! ## Helper lemmas: split and the nested accessor -/

theorem splitDotAux_no_dot (cs acc : List Char) (h : '.' ∉ cs) :
    splitDotAux cs acc = [String.mk (acc.reverse ++ cs)] := by
  induction cs generalizing acc with
  | nil => simp [splitDotAux]
  | cons c rest ih =>
    simp only [List.mem_cons, not_or] at h
    have hc : ¬c = '.' := fun hc => h.1 hc.symm
    simp only [splitDotAux, if_neg hc]
    rw [ih _ h.2]
    simp

/-- A key with no `'.'` splits into itself as the only segment. -/
theorem splitDot_no_dot (k : String) (h : '.' ∉ k.data) :
    splitDot k = [k] := by
  rw [splitDot, splitDotAux_no_dot _ _ h]
  simp

/-! ## C7 — nested accessor on empty and single-segment keys -/

/-- **C7, counterexample.**  The claim says `get_nested` with the empty key
returns `NotPresent` for every document.  But `"".split(".")` yields the
single segment `""`, which is looked up as an ordinary key: on a document
that binds the empty-string key, `get_nested` returns that binding. -/
theorem c7_counterexample :
    Document.getNested [("", .int32 7)] "" = .ok (.int32 7) ∧
      Except.ok (Bson.int32 7) ≠
        (.error .notPresent : Except ValueAccessError Bson) :=
  ⟨rfl, by simp⟩

/-- **C7, amended.**  A key without any `'.'` — the empty key included — is
resolved by a single lookup in the root document: the bound value if the key
is present, `NotPresent` otherwise.  (The empty key therefore yields
`NotPresent` exactly when the root document has no `""` entry.) -/
theorem c7_amended_root_lookup (d : Document) (k : String)
    (h : '.' ∉ k.data) :
    Document.getNested d k =
      match Document.get d k with
      | some v => .ok v
      | none => .error .notPresent := by
  rw [Document.getNested, splitDot_no_dot k h]
  rw [getNestedSegs]

/-- **C7, witness** for the amended theorem. -/
theorem c7_amended_root_lookup_witness :
    Document.getNested [("x", .int32 3)] "x" = .ok (.int32 3) :=
  c7_amended_root_lookup [("x", .int32 3)] "x" (by decide)

/-! ## Helper lemmas: the column materializer -/

theorem appendColumns_eq_some (doc : Document)
    (pairs : List (FieldInfo × List (Option ArrowValue)))
    (h : pairs.all (fun p => p.1.data_type.supported) = true) :
    appendColumns doc pairs =
      some (pairs.map (fun p => p.2 ++ [(appendCell p.1 doc).1]),
        (pairs.map (fun p => (appendCell p.1 doc).2)).flatten) := by
  induction pairs with
  | nil => rfl
  | cons p rest ih =>
    obtain ⟨f, col⟩ := p
    simp only [List.all_cons, Bool.and_eq_true] at h
    simp [appendColumns, h.1, ih h.2]

theorem appendColumns_some_supported (doc : Document)
    (pairs : List (FieldInfo × List (Option ArrowValue)))
    (out : List (List (Option ArrowValue)) × List ArrowError)
    (h : appendColumns doc pairs = some out) :
    pairs.all (fun p => p.1.data_type.supported) = true := by
  induction pairs generalizing out with
  | nil => rfl
  | cons p rest ih =>
    obtain ⟨f, col⟩ := p
    simp only [appendColumns] at h
    by_cases hs : f.data_type.supported
    · rw [if_pos hs] at h
      cases hrest : appendColumns doc rest with
      | none => rw [hrest] at h; cases h
      | some o =>
        simp only [List.all_cons, hs, Bool.true_and]
        exact ih o hrest
    · rw [if_neg hs] at h; cases h

theorem zip_errors_eq (doc : Document) (fs : List FieldInfo)
    (cols : List (List (Option ArrowValue))) (h : fs.length ≤ cols.length) :
    ((fs.zip cols).map (fun p => (appendCell p.1 doc).2)).flatten =
      rowErrors doc fs := by
  rw [rowErrors]
  have hm : (fs.zip cols).map (fun p => (appendCell p.1 doc).2) =
      ((fs.zip cols).map Prod.fst).map (fun f => (appendCell f doc).2) := by
    rw [List.map_map]; rfl
  rw [hm, List.map_fst_zip _ _ h]

/-- The full characterization of a successful `append_value` on a not
over-long builder: columns are the zip-snoc of the old ones, the committed
validity flag is `errors.is_empty()`, and the result is `Ok(())`/
`Err(errors)` accordingly. -/
theorem append_value_spec (b : DocumentBuilder) (doc : Document)
    (b' : DocumentBuilder) (r : Except (List ArrowError) Unit)
    (hlen : b.field_info.length ≤ b.columns.length)
    (h : b.append_value doc = some (b', r)) :
    b'.field_info = b.field_info ∧
    b'.columns = (b.field_info.zip b.columns).map
      (fun p => p.2 ++ [(appendCell p.1 doc).1]) ∧
    b'.validity = b.validity ++ [(rowErrors doc b.field_info).isEmpty] ∧
    r = (if (rowErrors doc b.field_info).isEmpty then .ok ()
      else .error (rowErrors doc b.field_info)) := by
  have hA : appendColumns doc (b.field_info.zip b.columns) =
      some ((b.field_info.zip b.columns).map
          (fun p => p.2 ++ [(appendCell p.1 doc).1]),
        ((b.field_info.zip b.columns).map
          (fun p => (appendCell p.1 doc).2)).flatten) := by
    cases hc : appendColumns doc (b.field_info.zip b.columns) with
    | none => simp only [DocumentBuilder.append_value, hc] at h; cases h
    | some out =>
      rw [← hc]
      exact appendColumns_eq_some _ _ (appendColumns_some_supported _ _ _ hc)
  simp only [DocumentBuilder.append_value, hA, Option.some.injEq,
    Prod.mk.injEq] at h
  obtain ⟨h1, h2⟩ := h
  subst h1
  subst h2
  refine ⟨rfl, rfl, ?_, ?_⟩
  · show b.validity ++ [_] = b.validity ++ [_]
    rw [zip_errors_eq _ _ _ hlen]
  · show (if _ then _ else _) = _
    rw [zip_errors_eq _ _ _ hlen]

/-- `convert` never accepts a BSON `Null` (no pattern of any builder arm
matches it). -/
theorem convert_null (ty : DataType) : convert ty Bson.null = none := by
  cases ty with
  | timestamp u => cases u <;> rfl
  | date32 u => cases u <;> rfl
  | date64 u => cases u <;> rfl
  | time32 u => cases u <;> rfl
  | time64 u => cases u <;> rfl
  | _ => rfl

theorem forall2_snoc_columns (doc : Document) (fs : List FieldInfo)
    (cols : List (List (Option ArrowValue))) (h : cols.length = fs.length) :
    List.Forall₂ (fun col col' => ∃ cell, col' = col ++ [cell]) cols
      ((fs.zip cols).map fun p => p.2 ++ [(appendCell p.1 doc).1]) := by
  induction fs generalizing cols with
  | nil =>
    cases cols with
    | nil => exact .nil
    | cons c cs => simp at h
  | cons f fs ih =>
    cases cols with
    | nil => simp at h
    | cons c cs =>
      simp only [List.length_cons, Nat.add_right_cancel_iff] at h
      exact List.Forall₂.cons ⟨_, rfl⟩ (ih cs h)

theorem get_map_zip_snoc (doc : Document) (fs : List FieldInfo)
    (cols : List (List (Option ArrowValue))) (i : Nat) (f : FieldInfo)
    (col : List (Option ArrowValue))
    (hf : fs[i]? = some f) (hc : cols[i]? = some col) :
    ((fs.zip cols).map fun p => p.2 ++ [(appendCell p.1 doc).1])[i]? =
      some (col ++ [(appendCell f doc).1]) := by
  induction fs generalizing cols i with
  | nil => simp at hf
  | cons g gs ih =>
    cases cols with
    | nil => simp at hc
    | cons c cs =>
      cases i with
      | zero =>
        simp only [List.getElem?_cons_zero, Option.some.injEq] at hf hc
        subst hf; subst hc
        simp [List.zip_cons_cons]
      | succ n =>
        simp only [List.getElem?_cons_succ] at hf hc
        simp only [List.zip_cons_cons, List.map_cons, List.getElem?_cons_succ]
        exact ih cs n hf hc

theorem append_value_aligned (b : DocumentBuilder) (doc : Document)
    (b' : DocumentBuilder) (r : Except (List ArrowError) Unit)
    (hal : b.Aligned) (h : b.append_value doc = some (b', r)) :
    b'.Aligned ∧ b'.field_info = b.field_info ∧
    b'.validity.length = b.validity.length + 1 := by
  obtain ⟨hlen, hcl⟩ := hal
  obtain ⟨hfi, hcols, hval, _⟩ :=
    append_value_spec b doc b' r (le_of_eq hlen.symm) h
  refine ⟨⟨?_, ?_⟩, hfi, ?_⟩
  · rw [hcols, hfi, List.length_map, List.length_zip, hlen, Nat.min_self]
  · intro c hc
    rw [hcols] at hc
    obtain ⟨p, hp, rfl⟩ := List.mem_map.mp hc
    obtain ⟨pf, pc⟩ := p
    have hpc : pc ∈ b.columns := (List.of_mem_zip hp).2
    rw [hval]
    simp [hcl _ hpc]
  · rw [hval]; simp

theorem reachable_aligned (b : DocumentBuilder) (h : BuilderReachable b) :
    b.Aligned := by
  induction h with
  | new fields =>
    refine ⟨by simp [DocumentBuilder.new], ?_⟩
    intro c hc
    simp only [DocumentBuilder.new, List.mem_map] at hc
    obtain ⟨_, _, rfl⟩ := hc
    rfl
  | append b b' doc r _ hap ih =>
    exact (append_value_aligned b doc b' r ih hap).1

/-- The cell (`.1 = none`) and error (`.2`) behavior of one column when the
source field is absent or BSON `Null`. -/
theorem appendCell_absent (f : FieldInfo) (doc : Document)
    (habs : Document.getNested doc f.mongodb_field = .error .notPresent ∨
      Document.getNested doc f.mongodb_field = .ok .null) :
    (appendCell f doc).1 = none ∧
    (f.is_nullable = true → appendCell f doc = (none, [])) ∧
    (f.is_nullable = false → (appendCell f doc).2 ≠ []) := by
  cases habs with
  | inl hnp =>
    cases hn : f.is_nullable <;> simp [appendCell, hnp, hn]
  | inr hnull =>
    cases hn : f.is_nullable <;> simp [appendCell, hnull, convert_null, hn]

/-! ## C5 — nullability of absent / null source fields -/

/-- **C5.**  For a column `f` of the builder whose nested lookup yields
`NotPresent` or BSON `Null`: the appended cell is null in every case; if
`f` is nullable, the column records no error, so the row's validity flag is
`true` provided no other column errs; if `f` is non-nullable, the column
records an error and the row's validity flag is `false`. -/
theorem c5_nullability (b b' : DocumentBuilder) (doc : Document) (i : Nat)
    (f : FieldInfo) (r : Except (List ArrowError) Unit)
    (hreach : BuilderReachable b)
    (hf : b.field_info[i]? = some f)
    (habs : Document.getNested doc f.mongodb_field = .error .notPresent ∨
      Document.getNested doc f.mongodb_field = .ok .null)
    (h : b.append_value doc = some (b', r)) :
    (∃ col, b.columns[i]? = some col ∧
      b'.columns[i]? = some (col ++ [none])) ∧
    (f.is_nullable = true → appendCell f doc = (none, []) ∧
      (rowErrors doc b.field_info = [] →
        b'.validity.getLast? = some true)) ∧
    (f.is_nullable = false → (appendCell f doc).2 ≠ [] ∧
      b'.validity.getLast? = some false) := by
  obtain ⟨hlen, hcl⟩ := reachable_aligned b hreach
  obtain ⟨_, hcols, hval, _⟩ :=
    append_value_spec b doc b' r (le_of_eq hlen.symm) h
  obtain ⟨hcell, hnul, hnn⟩ := appendCell_absent f doc habs
  obtain ⟨hi, _⟩ := List.getElem?_eq_some.mp hf
  have hic : i < b.columns.length := by rw [hlen]; exact hi
  have hc : b.columns[i]? = some b.columns[i] := List.getElem?_eq_getElem hic
  have hfmem : f ∈ b.field_info := by
    obtain ⟨_, hfe⟩ := List.getElem?_eq_some.mp hf
    exact hfe ▸ List.getElem_mem _
  refine ⟨⟨b.columns[i], hc, ?_⟩, ?_, ?_⟩
  · rw [hcols, get_map_zip_snoc doc _ _ i f _ hf hc, hcell]
  · intro hn
    refine ⟨hnul hn, fun hE => ?_⟩
    rw [hval, List.getLast?_concat, hE]
    rfl
  · intro hn
    refine ⟨hnn hn, ?_⟩
    have hEne : rowErrors doc b.field_info ≠ [] := by
      obtain ⟨e, he⟩ := List.exists_mem_of_ne_nil _ (hnn hn)
      exact List.ne_nil_of_mem
        (List.mem_flatten.mpr
          ⟨(appendCell f doc).2,
            List.mem_map_of_mem _ hfmem, he⟩)
    rw [hval, List.getLast?_concat]
    have : (rowErrors doc b.field_info).isEmpty = false := by
      rw [Bool.eq_false_iff]
      intro hemp
      exact hEne (List.isEmpty_iff.mp hemp)
    rw [this]

/-- **C5, witness**: a non-nullable `Int32` column against the empty
document — the cell is null, an error is recorded, the validity bit is
`false`. -/
theorem c5_nullability_witness :
    (∃ col, (DocumentBuilder.new [c5field]).columns[0]? = some col ∧
      c5after.columns[0]? = some (col ++ [none])) ∧
    ((⟨"x", .int32, false⟩ : FieldInfo).is_nullable = true →
      appendCell ⟨"x", .int32, false⟩ [] = (none, []) ∧
      (rowErrors [] (DocumentBuilder.new [c5field]).field_info = [] →
        c5after.validity.getLast? = some true)) ∧
    ((⟨"x", .int32, false⟩ : FieldInfo).is_nullable = false →
      (appendCell ⟨"x", .int32, false⟩ []).2 ≠ [] ∧
      c5after.validity.getLast? = some false) :=
  c5_nullability (DocumentBuilder.new [c5field]) c5after [] 0
    ⟨"x", .int32, false⟩ (.error [.external .notPresent])
    (.new _) rfl (Or.inl rfl) rfl

/-! ## C6 — one cell per column per append, result iff row clean -/

/-- **C6.**  Every `append_value` that returns (does not hit the
unsupported-type panic) appends exactly one entry — value or null — to
every column and exactly one validity flag to the struct; afterwards every
column and the validity buffer have equal length (one more than before);
the call returns `Ok(())` iff the row recorded no per-column error, and
otherwise returns exactly that row's error list. -/
theorem c6_append_value_row (b b' : DocumentBuilder) (doc : Document)
    (r : Except (List ArrowError) Unit)
    (hreach : BuilderReachable b)
    (h : b.append_value doc = some (b', r)) :
    List.Forall₂ (fun col col' => ∃ cell, col' = col ++ [cell])
      b.columns b'.columns ∧
    b'.validity = b.validity ++ [(rowErrors doc b.field_info).isEmpty] ∧
    (∀ c ∈ b'.columns, c.length = b'.validity.length) ∧
    b'.validity.length = b.validity.length + 1 ∧
    (r = .ok () ↔ rowErrors doc b.field_info = []) ∧
    (rowErrors doc b.field_info ≠ [] →
      r = .error (rowErrors doc b.field_info)) := by
  have hal := reachable_aligned b hreach
  obtain ⟨hlen, hcl⟩ := hal
  obtain ⟨hfi, hcols, hval, hr⟩ :=
    append_value_spec b doc b' r (le_of_eq hlen.symm) h
  obtain ⟨hal', _, hvlen⟩ :=
    append_value_aligned b doc b' r ⟨hlen, hcl⟩ h
  refine ⟨?_, hval, hal'.2, hvlen, ?_, ?_⟩
  · rw [hcols]; exact forall2_snoc_columns doc _ _ hlen
  · constructor
    · intro hok
      by_contra hne
      rw [hr, if_neg (fun hemp => hne (List.isEmpty_iff.mp hemp))] at hok
      cases hok
    · intro hE
      rw [hr, if_pos (List.isEmpty_iff.mpr hE)]
  · intro hne
    rw [hr, if_neg (fun hemp => hne (List.isEmpty_iff.mp hemp))]

/-- **C6, witness**: a nullable `Int32` column against `{"x": 1}`. -/
theorem c6_append_value_row_witness :
    List.Forall₂ (fun col col' => ∃ cell, col' = col ++ [cell])
      (DocumentBuilder.new [fieldX]).columns c6after.columns ∧
    c6after.validity = (DocumentBuilder.new [fieldX]).validity ++
      [(rowErrors docX1 (DocumentBuilder.new [fieldX]).field_info).isEmpty] ∧
    (∀ c ∈ c6after.columns, c.length = c6after.validity.length) ∧
    c6after.validity.length =
      (DocumentBuilder.new [fieldX]).validity.length + 1 ∧
    ((.ok () : Except (List ArrowError) Unit) = .ok () ↔
      rowErrors docX1 (DocumentBuilder.new [fieldX]).field_info = []) ∧
    (rowErrors docX1 (DocumentBuilder.new [fieldX]).field_info ≠ [] →
      (.ok () : Except (List ArrowError) Unit) =
        .error (rowErrors docX1 (DocumentBuilder.new [fieldX]).field_info)) :=
  c6_append_value_row (DocumentBuilder.new [fieldX]) c6after docX1
    (.ok ()) (.new _) rfl

/-! ## C8 — Time64(Nanosecond) conversion -/

/-- **C8 (code bug).**  The source computes
`t.num_seconds_from_midnight() * 1_000_000_000 + t.nanosecond()` in `u32`
(both operands are `u32`, so the literal is inferred as `u32`), which
overflows for any time of day of five seconds or more: in release mode the
product wraps modulo `2^32` (in debug mode it panics).  At time-of-day
`00:00:05.000000000` the stored value is `5_000_000_000 mod 2^32 =
705_032_704`, not the `sec*1_000_000_000 + ns = 5_000_000_000` the claim
(and the source's own `expect` message, "nanoseconds since midnight
shouldn't overflow") promise. -/
theorem c8_time64_nanosecond_overflow :
    appendCell ⟨"t", .time64 .nanosecond, false⟩
        [("t", .datetime ⟨0, 0, 5⟩)] =
      (some (.vInt64 705032704), []) ∧
    (705032704 : Int) ≠ 5 * 1000000000 + 0 :=
  ⟨rfl, by norm_num⟩

/-! ## Helper lemmas: the record batch stream -/

theorem appendAll_ok (docs : List Document) (b b' : DocumentBuilder)
    (hal : b.Aligned) (h : appendAll b docs = some (.ok b')) :
    b'.Aligned ∧ b'.validity.length = b.validity.length + docs.length := by
  induction docs generalizing b with
  | nil =>
    simp only [appendAll, Option.some.injEq, Except.ok.injEq] at h
    subst h
    exact ⟨hal, by simp⟩
  | cons d rest ih =>
    simp only [appendAll] at h
    cases hap : b.append_value d with
    | none => rw [hap] at h; cases h
    | some pr =>
      obtain ⟨b1, r⟩ := pr
      rw [hap] at h
      cases r with
      | ok u =>
        cases u
        obtain ⟨hal1, _, hvl⟩ := append_value_aligned b d b1 _ hal hap
        obtain ⟨hal', hlen'⟩ := ih b1 hal1 h
        refine ⟨hal', ?_⟩
        rw [hlen', hvl]
        simp only [List.length_cons]
        omega
      | error es =>
        cases es with
        | nil => cases h
        | cons e es => simp at h

theorem intoRecordBatch_ok (docs : List Document)
    (fields : List MappedField) (batch : RecordBatch)
    (h : intoRecordBatch docs fields = some (.ok batch)) :
    (∀ c ∈ batch.columns, c.length = batch.numRows) ∧
    batch.numRows = docs.length := by
  rw [intoRecordBatch] at h
  cases ha : appendAll (DocumentBuilder.new fields) docs with
  | none => rw [ha] at h; cases h
  | some r =>
    rw [ha] at h
    cases r with
    | error e => simp [Except.map] at h
    | ok bfin =>
      simp only [Option.map_some', Except.map, Option.some.injEq,
        Except.ok.injEq] at h
      obtain ⟨⟨_, hcl⟩, hlen⟩ :=
        appendAll_ok docs _ bfin (reachable_aligned _ (.new fields)) ha
      subst h
      refine ⟨?_, ?_⟩
      · intro c hc
        exact hcl c hc
      · show bfin.validity.length = docs.length
        simpa [DocumentBuilder.new] using hlen

/-- Shape of every successful batch the drain loop emits: columns as long
as the row count, and — when the buffered prefix plus every run of
consecutive cursor documents stays within `bs` — at most `bs` rows. -/
theorem pollLoop_ok (fields : List MappedField) (bs : Nat)
    (docs : List Document) (script rest : List CursorItem) (done : Bool)
    (batch : RecordBatch)
    (h : pollLoop fields docs script =
      some (rest, done, .ready (some (.ok batch)))) :
    (∀ c ∈ batch.columns, c.length = batch.numRows) ∧
    (docs.length ≤ bs → runsBoundedAux bs docs.length script = true →
      batch.numRows ≤ bs) := by
  induction script generalizing docs with
  | nil =>
    simp only [pollLoop] at h
    by_cases hd : docs.isEmpty
    · rw [if_pos hd] at h; simp at h
    · rw [if_neg hd] at h
      cases hirb : intoRecordBatch docs fields with
      | none => rw [hirb] at h; cases h
      | some item =>
        rw [hirb] at h
        simp only [Option.map_some', Option.some.injEq, Prod.mk.injEq,
          StreamPoll.ready.injEq] at h
        obtain ⟨-, -, hitem⟩ := h
        obtain ⟨hshape, hrows⟩ :=
          intoRecordBatch_ok docs fields batch (by rw [hirb, hitem])
        exact ⟨hshape, fun hlen _ => hrows ▸ hlen⟩
  | cons it script ih =>
    cases it with
    | pending =>
      simp only [pollLoop] at h
      by_cases hd : docs.isEmpty
      · rw [if_pos hd] at h; simp at h
      · rw [if_neg hd] at h
        cases hirb : intoRecordBatch docs fields with
        | none => rw [hirb] at h; cases h
        | some item =>
          rw [hirb] at h
          simp only [Option.map_some', Option.some.injEq, Prod.mk.injEq,
            StreamPoll.ready.injEq] at h
          obtain ⟨-, -, hitem⟩ := h
          obtain ⟨hshape, hrows⟩ :=
            intoRecordBatch_ok docs fields batch (by rw [hirb, hitem])
          exact ⟨hshape, fun hlen _ => hrows ▸ hlen⟩
    | doc d =>
      have h' : pollLoop fields (docs ++ [d]) script =
          some (rest, done, .ready (some (.ok batch))) := h
      obtain ⟨hshape, hbound⟩ := ih (docs ++ [d]) h'
      refine ⟨hshape, fun hlen hb => ?_⟩
      simp only [runsBoundedAux, Bool.and_eq_true, decide_eq_true_eq] at hb
      exact hbound (by simpa using hb.1) (by simpa using hb.2)
    | err msg =>
      simp only [pollLoop, Option.some.injEq, Prod.mk.injEq] at h
      obtain ⟨-, -, hitem⟩ := h
      cases hitem
    | eos =>
      simp only [pollLoop] at h
      by_cases hd : docs.isEmpty
      · rw [if_pos hd] at h; simp at h
      · rw [if_neg hd] at h
        cases hirb : intoRecordBatch docs fields with
        | none => rw [hirb] at h; cases h
        | some item =>
          rw [hirb] at h
          simp only [Option.map_some', Option.some.injEq, Prod.mk.injEq,
            StreamPoll.ready.injEq] at h
          obtain ⟨-, -, hitem⟩ := h
          obtain ⟨hshape, hrows⟩ :=
            intoRecordBatch_ok docs fields batch (by rw [hirb, hitem])
          exact ⟨hshape, fun hlen _ => hrows ▸ hlen⟩

/-! ## C1 — emitted batch shape vs batch_size -/

/-- **C1, counterexample.**  The drain loop of `poll_next` never checks the
buffer against `batch_size`: with `batch_size = 1` and a cursor that yields
two documents before suspending, the single emitted batch has 2 rows. -/
theorem c1_counterexample :
    MongoStream.pollNext c1Stream =
      some ({ cursorDone := false, cursor := [], fields := [fieldX],
              batch_size := 1 },
        .ready (some (.ok ⟨[[some (.vInt32 1), some (.vInt32 1)]], 2⟩))) ∧
    ¬ ((2 : Nat) ≤ c1Stream.batch_size) :=
  ⟨rfl, by decide⟩

/-- **C1, amended.**  Every record batch a `MongoStream` emits has all
columns of equal length, equal to the batch's row count.  The row count is
the number of documents drained from the cursor in that poll; it is bounded
by the requested `batch_size` only under the additional assumption that the
cursor never yields more than `batch_size` documents back-to-back between
suspension points (which a driver honoring the server-side `batch_size`
hint arranges) — the loop itself enforces no cap. -/
theorem c1_amended_batch_shape (s s' : MongoStream) (batch : RecordBatch)
    (h : s.pollNext = some (s', .ready (some (.ok batch)))) :
    (∀ c ∈ batch.columns, c.length = batch.numRows) ∧
    (runsBoundedAux s.batch_size 0 s.cursor = true →
      batch.numRows ≤ s.batch_size) := by
  rw [MongoStream.pollNext] at h
  by_cases hd : s.cursorDone
  · rw [if_pos hd] at h; simp at h
  · rw [if_neg hd] at h
    cases hp : pollLoop s.fields [] s.cursor with
    | none => rw [hp] at h; cases h
    | some out =>
      obtain ⟨rest, done, res⟩ := out
      rw [hp] at h
      simp only [Option.map_some', Option.some.injEq, Prod.mk.injEq] at h
      obtain ⟨-, hres⟩ := h
      subst hres
      obtain ⟨hshape, hbound⟩ :=
        pollLoop_ok s.fields s.batch_size [] s.cursor rest done batch hp
      exact ⟨hshape, fun hb => hbound (Nat.zero_le _) (by simpa using hb)⟩

/-- **C1, witness** for the amended theorem: one document then
end-of-stream, `batch_size = 2`. -/
theorem c1_amended_batch_shape_witness :
    (∀ c ∈ [[some (ArrowValue.vInt32 1)]], List.length c = 1) ∧
    (runsBoundedAux 2 0 [.doc docX1, .eos] = true → 1 ≤ 2) :=
  c1_amended_batch_shape ⟨false, [.doc docX1, .eos], [fieldX], 2⟩
    ⟨true, [], [fieldX], 2⟩ ⟨[[some (.vInt32 1)]], 1⟩ rfl

/-! ## C2 — driver errors and stream termination -/

theorem pollLoop_err (fields : List MappedField) (docs : List Document)
    (pre rest : List CursorItem) (msg : String)
    (hpre : allDocItems pre = true) :
    pollLoop fields docs (pre ++ .err msg :: rest) =
      some (rest, false, .ready (some (.error (.execution msg)))) := by
  induction pre generalizing docs with
  | nil => rfl
  | cons it pre ih =>
    cases it with
    | doc d => exact ih (docs ++ [d]) hpre
    | pending => simp [allDocItems] at hpre
    | err m => simp [allDocItems] at hpre
    | eos => simp [allDocItems] at hpre

/-- **C2, counterexample.**  A driver error is emitted as one error item,
but the stream is not terminated by it: the fuse flag is only set by
cursor end-of-stream, so the very next poll drains the cursor again and
emits a further record batch instead of end-of-stream. -/
theorem c2_counterexample :
    ((MongoStream.pollNext c2Stream).bind fun p =>
        MongoStream.pollNext p.1) =
      some ({ cursorDone := false, cursor := [], fields := [fieldX],
              batch_size := 1 },
        .ready (some (.ok ⟨[[some (.vInt32 1)]], 1⟩))) ∧
    (.ready (some (.ok (⟨[[some (.vInt32 1)]], 1⟩ : RecordBatch)))
        : StreamPoll) ≠ .ready none :=
  ⟨rfl, by simp⟩

/-- **C2, amended.**  Each driver error yielded by the cursor is emitted as
exactly one error item wrapping that error (any buffered documents of the
same poll are dropped), but the stream does **not** terminate on it — its
cursor-done flag stays unset and later polls keep draining the cursor.  The
stream terminates exactly on cursor end-of-stream: once the fused cursor
reports done, every subsequent poll returns end-of-stream without touching
the cursor. -/
theorem c2_amended_error_then_continue (s : MongoStream)
    (pre rest : List CursorItem) (msg : String)
    (h1 : s.cursorDone = false) (h2 : s.cursor = pre ++ .err msg :: rest)
    (h3 : allDocItems pre = true) :
    s.pollNext = some ({ s with cursor := rest, cursorDone := false },
      .ready (some (.error (.execution msg)))) ∧
    ∀ t : MongoStream, t.cursorDone = true →
      t.pollNext = some (t, .ready none) := by
  refine ⟨?_, fun t ht => by rw [MongoStream.pollNext, if_pos ht]⟩
  rw [MongoStream.pollNext, if_neg (by rw [h1]; simp), h2,
    pollLoop_err s.fields [] pre rest msg h3]
  rfl

/-- **C2, witness** for the amended theorem. -/
theorem c2_amended_error_then_continue_witness :
    MongoStream.pollNext c2Stream =
      some ({ c2Stream with
                cursor := [.doc docX1, .pending]
                cursorDone := false },
        .ready (some (.error (.execution "boom")))) ∧
    ∀ t : MongoStream, t.cursorDone = true →
      t.pollNext = some (t, .ready none) :=
  c2_amended_error_then_continue c2Stream [] [.doc docX1, .pending] "boom"
    rfl rfl rfl

/-! ## C9 — wire projection -/

theorem Document.get_foldl_insert_one (fields : List MappedField)
    (d : Document) (k : String) :
    Document.get
        (fields.foldl
          (fun d f => Document.insert d f.mongodb_field (.int32 1)) d) k =
      if fields.any (fun f => f.mongodb_field = k) then some (.int32 1)
      else Document.get d k := by
  induction fields generalizing d with
  | nil => simp
  | cons f rest ih =>
    by_cases hf : f.mongodb_field = k <;>
      simp [List.foldl_cons, ih, Document.get_insert, hf]

/-- **C9.**  The wire projection maps every field's source path to
`Int32(1)`, and it contains the entry `_id: Int32(0)` iff no field's source
path equals `"_id"`. -/
theorem c9_wire_projection (schema : MappedSchema) :
    (∀ f ∈ schema.fields,
        Document.get (mongodb_projection schema) f.mongodb_field =
          some (.int32 1)) ∧
      (Document.get (mongodb_projection schema) "_id" = some (.int32 0) ↔
        ∀ f ∈ schema.fields, f.mongodb_field ≠ "_id") := by
  have hbase : ∀ k,
      Document.get
        (schema.fields.foldl
          (fun d f => Document.insert d f.mongodb_field (.int32 1)) []) k =
      if schema.fields.any (fun f => f.mongodb_field = k) then
        some (.int32 1)
      else none :=
    fun k => Document.get_foldl_insert_one schema.fields [] k
  by_cases hany : schema.fields.any (fun f => f.mongodb_field = "_id")
  · have hid := hbase "_id"
    rw [if_pos hany] at hid
    have hpe : mongodb_projection schema =
        schema.fields.foldl
          (fun d f => Document.insert d f.mongodb_field (.int32 1)) [] := by
      simp only [mongodb_projection, Document.entryOrInsert, hid]
    obtain ⟨f0, hf0, hfk0⟩ := List.any_eq_true.mp hany
    simp only [decide_eq_true_eq] at hfk0
    refine ⟨?_, ?_⟩
    · intro f hf
      rw [hpe, hbase]
      have : schema.fields.any (fun g => g.mongodb_field = f.mongodb_field)
          = true := List.any_eq_true.mpr ⟨f, hf, by simp⟩
      rw [if_pos this]
    · rw [hpe, hid]
      exact iff_of_false (by simp) (fun hall => hall f0 hf0 hfk0)
  · have hid := hbase "_id"
    rw [if_neg hany] at hid
    have hpe : mongodb_projection schema =
        (schema.fields.foldl
          (fun d f => Document.insert d f.mongodb_field (.int32 1)) []) ++
          [("_id", .int32 0)] := by
      simp only [mongodb_projection, Document.entryOrInsert, hid]
    refine ⟨?_, ?_⟩
    · intro f hf
      rw [hpe, Document.get_append_single, hbase]
      have : schema.fields.any (fun g => g.mongodb_field = f.mongodb_field)
          = true := List.any_eq_true.mpr ⟨f, hf, by simp⟩
      rw [if_pos this]
    · rw [hpe, Document.get_append_single, hid]
      exact iff_of_true (by simp)
        (fun f hf hfk =>
          hany (List.any_eq_true.mpr ⟨f, hf, by simp [hfk]⟩))

/-- **C9, witness** (scenario 5 of the spec: paths `name` and `addr.city`
produce `{name: 1, "addr.city": 1, _id: 0}`). -/
theorem c9_wire_projection_witness :
    Document.get
        (mongodb_projection
          ⟨"c", [⟨⟨"name", .utf8, true⟩, "name"⟩,
            ⟨⟨"city", .utf8, true⟩, "addr.city"⟩], []⟩) "_id" =
      some (.int32 0) :=
  (c9_wire_projection _).2.mpr (by decide)

/-! ## C3 — the lazy state cell is monotonic -/

/-- **C3.**  The only write to the `ArcSwap` state cell in the repository
(the single `swap` in `LazyExec::execute`) always stores a `Loaded` value,
so along every possible cell history — arbitrary interleavings, stale
observations included — once the cell is observed `Loaded` it is `Loaded`
at every later point and never `Lazy` again. -/
theorem c3_loaded_monotonic (s t : LazyState) (h : StateTrace s t)
    (hl : s.isLoaded = true) : t.isLoaded = true := by
  induction h with
  | refl => exact hl
  | swap t u e o p _ hstore _ =>
    cases o with
    | loaded m => simp [LazyExec.execute] at hstore
    | lazy v =>
      cases hd : v.drainResult with
      | error err => simp [LazyExec.execute, hd] at hstore
      | ok data =>
        simp only [LazyExec.execute, hd, Option.some.injEq] at hstore
        rw [← hstore]
        rfl

/-- **C3, witness.** -/
theorem c3_loaded_monotonic_witness :
    (LazyState.loaded ⟨[], []⟩).isLoaded = true :=
  c3_loaded_monotonic (.loaded ⟨[], []⟩) (.loaded ⟨[], []⟩) (.refl _) rfl

/-! ## C4 — drain the full table, serve the caller's projection -/

/-- **C4.**  When `LazyExec::execute` observes `Lazy` (and the drain
succeeds), it first scans the upstream provider with **no projection and no
filters** while keeping the caller's `batch_size`; the `MemTable` swapped
into the cell is built from the **full upstream schema** and the drained
partitions; and the stream it returns comes from scanning that in-memory
table with the caller's original projection, filters and batch_size. -/
theorem c4_drain_full_then_caller_projection (e : LazyExec) (p : Provider)
    (data : List (List RecordBatch)) (hd : p.drainResult = .ok data) :
    LazyExec.execute e (.lazy p) 0 =
      { scanCalls := [(.upstream,
            { projection := none, batch_size := e.scan_args.batch_size
              filters := [] }),
          (.memTable, e.scan_args)]
        stored := some (.loaded { schema := p.schema, partitions := data })
        result := .ok ({ schema := p.schema, partitions := data },
          e.scan_args) } := by
  simp [LazyExec.execute, hd]

/-- **C4, witness.** -/
theorem c4_drain_full_then_caller_projection_witness :
    LazyExec.execute c4exec (.lazy c4provider) 0 =
      { scanCalls := [(.upstream,
            { projection := none, batch_size := 7, filters := [] }),
          (.memTable, c4exec.scan_args)]
        stored := some (.loaded
          { schema := c4provider.schema, partitions := [[]] })
        result := .ok ({ schema := c4provider.schema, partitions := [[]] },
          c4exec.scan_args) } :=
  c4_drain_full_then_caller_projection c4exec c4provider [[]] rfl

/-! ## C10 — execute ignores its partition index -/

/-- **C10.**  Both plans report exactly one partition, yet neither
`MongoExec::execute` nor `LazyExec::execute` validates its partition-index
argument: for every index `part` (including `part ≥ 1`) the result is
identical to `execute(0)` — the same full single-partition stream, never an
error. -/
theorem c10_execute_ignores_partition (e : MongoExec) (l : LazyExec)
    (s : LazyState) (part : Nat) :
    MongoExec.execute e part = MongoExec.execute e 0 ∧
    LazyExec.execute l s part = LazyExec.execute l s 0 ∧
    MongoExec.partitionCount e = 1 ∧ LazyExec.partitionCount l = 1 :=
  ⟨rfl, rfl, rfl, rfl⟩

end Bishop
